import Mathlib

/-!
Shallow embedding of the cursor-based sequence containers of the cpp-dsa
repository: the array-backed list (src/include/AList.h), the singly linked
list with header node (src/include/LList.h) and the dynamic array
(src/include/Vector.h), together with the shared abstract operation set of
src/include/List.h.

Modelling conventions.

AList: the C++ class stores a buffer of length capacity_, a size_ field and
a cursor curr_.  Every public operation reads and writes only the first
size_ buffer slots (the copy constructor copies size_ elements, clear
reallocates, getValue and remove check curr_ < size_ first), so the buffer
is modelled by its live prefix, a Lean list elems whose length is the size_
field; size_ always equals the number of live elements because every
mutation changes both in lockstep.  capacity_ and curr_ are carried
verbatim.

LList: the C++ class is a chain of heap nodes: a header node, then one node
per element, with tail_ the last node and curr_ pointing at the node BEFORE
the current element.  A cursor position in a singly linked chain without
sharing is determined by how many nodes precede it, so the state is
modelled as a zipper: before is the list of elements held by the nodes from
the first real node up to and including the node curr_ points at (empty
when curr_ is the header), and after is the list of elements held by the
nodes behind curr_.  tail_ always marks the last node, so curr_ equals
tail_ exactly when after is empty.  The size_ field always equals
before.length + after.length.  Each member function of LList.h is
translated under this correspondence: a dereference of curr_->next reads
the head of after, relinking curr_->next prepends to after, relinking
tail_->next appends behind after, and the prev traversal from head_ drops
the last entry of before.

Vector: modelled like AList (live prefix plus capacity).  Vector.h contains
four literal typos that make the header ill-formed as written; each is
translated by its unambiguous intent, noted at the definition it affects.
The unchecked operator[] is not modelled; the claims concern only the
checked accessors.
-/

namespace CppDsa

/-! ### Array-backed list, src/include/AList.h -/

/-- State of an AList: live elements, capacity_ and curr_ (AList.h 23-26). -/
structure AList (E : Type) where
  elems : List E
  capacity : Nat
  curr : Nat
  deriving Repr, DecidableEq

/-- DEFAULT_CAPACITY (AList.h line 20). -/
def AList.DEFAULT_CAPACITY : Nat := 10

/-- The size_ field: number of live elements (see the modelling note). -/
def AList.size {E : Type} (a : AList E) : Nat := a.elems.length

/-- Constructor AList(initialCapacity) (AList.h 72-76): empty list. -/
def AList.mkEmpty (E : Type) (initialCapacity : Nat) : AList E :=
  ⟨[], initialCapacity, 0⟩

/-- Private resize (AList.h 32-49): clamps newCapacity up to size_, moves the
live elements to the fresh buffer (contents unchanged in the model). -/
def AList.resize {E : Type} (a : AList E) (newCapacity : Nat) : AList E :=
  { a with capacity := if newCapacity < a.size then a.size else newCapacity }

/-- Private ensureCapacity (AList.h 54-65): on size_ >= capacity_ double the
capacity, falling back to capacity_ + 1 on multiplicative overflow; over Nat
the product of a positive capacity never wraps, only capacity_ = 0 takes the
fallback branch. -/
def AList.ensureCapacity {E : Type} (a : AList E) : AList E :=
  if a.capacity ≤ a.size then
    a.resize (if a.capacity * 2 ≤ a.capacity then a.capacity + 1 else a.capacity * 2)
  else a

/-- clear (AList.h 149-154): fresh buffer of the same capacity, size_ and
curr_ reset to 0. -/
def AList.clear {E : Type} (a : AList E) : AList E :=
  { a with elems := [], curr := 0 }

/-- insert (AList.h 163-175): ensureCapacity, shift the slots at indices
curr_ .. size_-1 one place right, write item at curr_, increment size_.  On
the live prefix this is exactly insertion at index curr_. -/
def AList.insert {E : Type} (a : AList E) (item : E) : AList E :=
  let b := a.ensureCapacity
  { b with elems := b.elems.take b.curr ++ item :: b.elems.drop b.curr }

/-- append (AList.h 183-187): ensureCapacity, write at slot size_,
increment size_. -/
def AList.append {E : Type} (a : AList E) (item : E) : AList E :=
  let b := a.ensureCapacity
  { b with elems := b.elems ++ [item] }

/-- remove (AList.h 196-213): throws (modelled none) when curr_ >= size_;
otherwise takes the element at curr_, shifts the elements behind it one
place left and decrements size_. -/
def AList.remove {E : Type} (a : AList E) : Option (E × AList E) :=
  if h : a.curr < a.size then
    some (a.elems.get ⟨a.curr, h⟩,
      { a with elems := a.elems.take a.curr ++ a.elems.drop (a.curr + 1) })
  else none

/-- moveToStart (AList.h 216-219). -/
def AList.moveToStart {E : Type} (a : AList E) : AList E :=
  { a with curr := 0 }

/-- moveToEnd (AList.h 222-225). -/
def AList.moveToEnd {E : Type} (a : AList E) : AList E :=
  { a with curr := a.size }

/-- prev (AList.h 228-234): decrement curr_ unless already 0. -/
def AList.prev {E : Type} (a : AList E) : AList E :=
  if 0 < a.curr then { a with curr := a.curr - 1 } else a

/-- next (AList.h 237-243): increment curr_ unless curr_ >= size_. -/
def AList.next {E : Type} (a : AList E) : AList E :=
  if a.curr < a.size then { a with curr := a.curr + 1 } else a

/-- length (AList.h 246-249): returns size_. -/
def AList.length {E : Type} (a : AList E) : Nat := a.size

/-- currPos (AList.h 252-255): returns curr_. -/
def AList.currPos {E : Type} (a : AList E) : Nat := a.curr

/-- moveToPos (AList.h 262-269): throws (none) when pos > size_, otherwise
sets curr_. -/
def AList.moveToPos {E : Type} (a : AList E) (pos : Nat) : Option (AList E) :=
  if a.size < pos then none else some { a with curr := pos }

/-- getValue (AList.h 276-283): throws (none) when curr_ >= size_, otherwise
returns the element at curr_. -/
def AList.getValue {E : Type} (a : AList E) : Option E :=
  a.elems[a.curr]?

/-- isEmpty, inherited from List (List.h 105-108): length() == 0. -/
def AList.isEmpty {E : Type} (a : AList E) : Bool :=
  a.length == 0

/-- reserve (AList.h 301-307). -/
def AList.reserve {E : Type} (a : AList E) (n : Nat) : AList E :=
  if a.capacity < n then a.resize n else a

/-- shrink_to_fit (AList.h 314-321): when capacity_ > size_, resize to
size_ when positive, else to 1; otherwise do nothing. -/
def AList.shrink_to_fit {E : Type} (a : AList E) : AList E :=
  if a.size < a.capacity then
    a.resize (if 0 < a.size then a.size else 1)
  else a

/-- Copy constructor (AList.h 82-87): fresh buffer of the same capacity,
copy_n of the size_ live elements, same size_ and curr_. -/
def AList.copy {E : Type} (a : AList E) : AList E :=
  ⟨a.elems, a.capacity, a.curr⟩

/-- Move constructor (AList.h 113-120): the target steals the buffer and the
fields, the source keeps a null buffer with capacity_ = size_ = curr_ = 0.
Returned as (target, source after the move). -/
def AList.moveCtor {E : Type} (a : AList E) : AList E × AList E :=
  (⟨a.elems, a.capacity, a.curr⟩, ⟨[], 0, 0⟩)

/-! ### Linked list, src/include/LList.h -/

/-- Zipper state of a live LList (see the modelling note): before are the
elements of the nodes up to and including the node curr_ points at, after
the elements of the nodes behind it. -/
structure LList (E : Type) where
  before : List E
  after : List E
  deriving Repr, DecidableEq

/-- The size_ field (LList.h 29): number of real nodes. -/
def LList.size {E : Type} (l : LList E) : Nat :=
  l.before.length + l.after.length

/-- Constructor LList() via init() (LList.h 34-39, 82-85): header only,
curr_ = tail_ = head_. -/
def LList.mkEmpty (E : Type) : LList E := ⟨[], []⟩

/-- clear (LList.h 159-163): removeAll then init. -/
def LList.clear {E : Type} (_l : LList E) : LList E := ⟨[], []⟩

/-- insert (LList.h 172-180): curr_->next = new Link(item, curr_->next),
i.e. the new node becomes the node right behind curr_, so item is prepended
to after; tail_ is advanced when curr_ was tail_ (after empty). -/
def LList.insert {E : Type} (l : LList E) (item : E) : LList E :=
  { l with after := item :: l.after }

/-- append (LList.h 188-193): tail_->next = new Link(item, nullptr) and
tail_ advances; curr_ untouched, so the element lands behind after. -/
def LList.append {E : Type} (l : LList E) (item : E) : LList E :=
  { l with after := l.after ++ [item] }

/-- remove (LList.h 204-223): throws (none) when curr_->next == nullptr,
i.e. when curr_ is tail_ (after empty); otherwise unlinks the node behind
curr_ and returns its element; curr_ stays, so the element that followed
becomes current. -/
def LList.remove {E : Type} (l : LList E) : Option (E × LList E) :=
  match l.after with
  | [] => none
  | x :: rest => some (x, { l with after := rest })

/-- moveToStart (LList.h 230-233): curr_ = head_. -/
def LList.moveToStart {E : Type} (l : LList E) : LList E :=
  ⟨[], l.before ++ l.after⟩

/-- moveToEnd (LList.h 241-244): curr_ = tail_. -/
def LList.moveToEnd {E : Type} (l : LList E) : LList E :=
  ⟨l.before ++ l.after, []⟩

/-- prev (LList.h 252-265): return when curr_ == head_ (before empty);
otherwise walk from head_ to the node whose next is curr_ and stop there,
which moves the last element of before over to after. -/
def LList.prev {E : Type} (l : LList E) : LList E :=
  match l.before.getLast? with
  | none => l
  | some x => ⟨l.before.dropLast, x :: l.after⟩

/-- next (LList.h 273-279): advance curr_ = curr_->next unless curr_ is
tail_ (after empty). -/
def LList.next {E : Type} (l : LList E) : LList E :=
  match l.after with
  | [] => l
  | x :: rest => ⟨l.before ++ [x], rest⟩

/-- length (LList.h 285-288): returns size_. -/
def LList.length {E : Type} (l : LList E) : Nat := l.size

/-- currPos (LList.h 296-308): walk from head_ counting steps until curr_,
which is the number of nodes at or before curr_, i.e. before.length. -/
def LList.currPos {E : Type} (l : LList E) : Nat := l.before.length

/-- moveToPos (LList.h 317-329): throws (none) when pos > size_, otherwise
restarts curr_ at head_ and advances pos times. -/
def LList.moveToPos {E : Type} (l : LList E) (pos : Nat) : Option (LList E) :=
  if l.size < pos then none
  else some ⟨(l.before ++ l.after).take pos, (l.before ++ l.after).drop pos⟩

/-- getValue (LList.h 336-343): throws (none) when curr_->next == nullptr
(after empty), otherwise returns curr_->next->element, the head of after. -/
def LList.getValue {E : Type} (l : LList E) : Option E :=
  l.after.head?

/-- isEmpty, inherited from List (List.h 105-108). -/
def LList.isEmpty {E : Type} (l : LList E) : Bool :=
  l.length == 0

/-- Private copyFrom (LList.h 61-76): init, append every element of the
source chain in order, then moveToPos at the source currPos.  The moveToPos
call cannot fail (the source currPos never exceeds the copied size); the
unreachable failure branch returns the pre-move state. -/
def LList.copyFrom {E : Type} (other : LList E) : LList E :=
  let copied := (other.before ++ other.after).foldl
    (fun acc x => acc.append x) (LList.mkEmpty E)
  (copied.moveToPos other.currPos).getD copied

/-- Raw linked-list handle.  live = none models the state with head_, tail_
and curr_ all null and size_ = 0, exactly what move construction and move
assignment (LList.h 115-146) leave behind in the source; live = some l is a
live list. -/
structure LListRaw (E : Type) where
  live : Option (LList E)

/-- Move constructor (LList.h 115-122): the target takes the four fields,
the source pointers become null and size_ = 0.  Returned as
(target, source after the move). -/
def LListRaw.moveCtor {E : Type} (l : LListRaw E) : LListRaw E × LListRaw E :=
  (l, ⟨none⟩)

/-- length (LList.h 285-288) on a raw handle: reads the size_ field, which
is 0 in the moved-from state. -/
def LListRaw.length {E : Type} (l : LListRaw E) : Nat :=
  match l.live with
  | some s => s.size
  | none => 0

/-- append (LList.h 188-193) on a raw handle: executes
tail_->next = new Link(item, nullptr) unconditionally; in the moved-from
state tail_ is null, so the store dereferences a null pointer and has no
defined result state (none). -/
def LListRaw.append {E : Type} (l : LListRaw E) (item : E) : Option (LListRaw E) :=
  match l.live with
  | some s => some ⟨some (s.append item)⟩
  | none => none

/-! ### Dynamic array, src/include/Vector.h

Vector.h is ill-formed as written: the copy constructor (lines 49-54) names
the member items_ and the type t instead of elements_ and T, the copy
assignment (line 61) misspells const, reserve (line 318) bounds its loop by
the type name size_t instead of the member size_, and shrink_to_fit
(line 336) writes the undefined name o where the value 0 is meant (the
branch on newCapacity == 0 right below is otherwise dead).  The member is
called elems here, and each typo is translated by that intent. -/

/-- State of a Vector: live elements and capacity_ (Vector.h 447-449). -/
structure Vector (E : Type) where
  elems : List E
  capacity : Nat
  deriving Repr, DecidableEq

/-- DEFAULT_CAPACITY (Vector.h line 444). -/
def Vector.DEFAULT_CAPACITY : Nat := 16

/-- The size_ field: number of live elements. -/
def Vector.size {E : Type} (v : Vector E) : Nat := v.elems.length

/-- Constructor Vector(initialCapacity) (Vector.h 28-32), default 0. -/
def Vector.mkEmpty (E : Type) (initialCapacity : Nat) : Vector E :=
  ⟨[], initialCapacity⟩

/-- empty (Vector.h 278-281). -/
def Vector.isVecEmpty {E : Type} (v : Vector E) : Bool :=
  v.size == 0

/-- at (Vector.h 134-142): throws (none) when index >= size_. -/
def Vector.atIdx {E : Type} (v : Vector E) (index : Nat) : Option E :=
  if index < v.size then v.elems[index]? else none

/-- front (Vector.h 165-173): throws (none) when empty. -/
def Vector.front {E : Type} (v : Vector E) : Option E :=
  if v.isVecEmpty then none else v.elems[0]?

/-- back (Vector.h 195-203): throws (none) when empty. -/
def Vector.back {E : Type} (v : Vector E) : Option E :=
  if v.isVecEmpty then none else v.elems[v.size - 1]?

/-- reserve (Vector.h 308-325): return when newCapacity <= capacity_,
otherwise move the live elements to a fresh buffer of that capacity. -/
def Vector.reserve {E : Type} (v : Vector E) (newCapacity : Nat) : Vector E :=
  if newCapacity ≤ v.capacity then v else { v with capacity := newCapacity }

/-- shrink_to_fit (Vector.h 332-355): when capacity_ > size_, the new
capacity is size_ when positive else 0; capacity 0 releases the buffer,
otherwise the live elements move to a buffer of exactly that capacity. -/
def Vector.shrink_to_fit {E : Type} (v : Vector E) : Vector E :=
  if v.size < v.capacity then
    let newCapacity := if 0 < v.size then v.size else 0
    if newCapacity = 0 then { v with capacity := 0 }
    else { v with capacity := newCapacity }
  else v

/-- clear (Vector.h 362-365): size_ = 0, capacity kept. -/
def Vector.clear {E : Type} (v : Vector E) : Vector E :=
  { v with elems := [] }

/-- Private ensureCapacity (Vector.h 454-468): on size_ >= capacity_ grow
to DEFAULT_CAPACITY from 0, else double, with the additive overflow
fallback (never taken over Nat for positive capacity). -/
def Vector.ensureCapacity {E : Type} (v : Vector E) : Vector E :=
  if v.capacity ≤ v.size then
    let newCapacity := if v.capacity = 0 then Vector.DEFAULT_CAPACITY
      else v.capacity * 2
    let newCapacity := if newCapacity ≤ v.capacity ∧ 0 < v.capacity
      then v.capacity + 1 else newCapacity
    v.reserve newCapacity
  else v

/-- push_back (Vector.h 373-377): ensureCapacity then write at slot size_
and increment size_. -/
def Vector.push_back {E : Type} (v : Vector E) (item : E) : Vector E :=
  let w := v.ensureCapacity
  { w with elems := w.elems ++ [item] }

/-- pop_back (Vector.h 397-405): throws (none) when empty, otherwise
decrements size_ without reallocation. -/
def Vector.pop_back {E : Type} (v : Vector E) : Option (Vector E) :=
  if v.isVecEmpty then none
  else some { v with elems := v.elems.take (v.size - 1) }

/-- resize (Vector.h 414-430): reserve when count > capacity_; default
construct the slots from size_ to count when growing; size_ = count. -/
def Vector.resize {E : Type} [Inhabited E] (v : Vector E) (count : Nat) : Vector E :=
  let w := if v.capacity < count then v.reserve count else v
  if w.size < count then
    { w with elems := w.elems ++ List.replicate (count - w.size) default }
  else
    { w with elems := w.elems.take count }

/-- swap (Vector.h 436-441): exchanges size_, capacity_ and storage. -/
def Vector.swap {E : Type} (v w : Vector E) : Vector E × Vector E :=
  (w, v)

/-! ### The abstract operation set of List.h and observable outcomes -/

/-- One call of the sequence abstraction (List.h 32-108). -/
inductive Op (E : Type) where
  | clear
  | insert (x : E)
  | append (x : E)
  | remove
  | moveToStart
  | moveToEnd
  | prev
  | next
  | length
  | currPos
  | moveToPos (pos : Nat)
  | getValue
  | isEmpty
  deriving Repr, DecidableEq

/-- Observable outcome of one call: normal void return, a returned number,
a returned element, a returned truth value, or a thrown std::out_of_range. -/
inductive Out (E : Type) where
  | ok
  | nat (n : Nat)
  | val (x : E)
  | bool (b : Bool)
  | err
  deriving Repr, DecidableEq

/-- One call on an AList: the state afterwards and the observable outcome.
A throwing call propagates before any mutation, so the state is returned
unchanged on err. -/
def AList.step {E : Type} (a : AList E) : Op E → AList E × Out E
  | .clear => (a.clear, .ok)
  | .insert x => (a.insert x, .ok)
  | .append x => (a.append x, .ok)
  | .remove =>
    match a.remove with
    | some (x, a2) => (a2, .val x)
    | none => (a, .err)
  | .moveToStart => (a.moveToStart, .ok)
  | .moveToEnd => (a.moveToEnd, .ok)
  | .prev => (a.prev, .ok)
  | .next => (a.next, .ok)
  | .length => (a, .nat a.length)
  | .currPos => (a, .nat a.currPos)
  | .moveToPos pos =>
    match a.moveToPos pos with
    | some a2 => (a2, .ok)
    | none => (a, .err)
  | .getValue =>
    match a.getValue with
    | some x => (a, .val x)
    | none => (a, .err)
  | .isEmpty => (a, .bool a.isEmpty)

/-- Run a sequence of calls on an AList, collecting the outcomes. -/
def AList.run {E : Type} (a : AList E) : List (Op E) → AList E × List (Out E)
  | [] => (a, [])
  | op :: ops =>
    let s := a.step op
    let r := s.1.run ops
    (r.1, s.2 :: r.2)

/-- One call on an LList: the state afterwards and the observable outcome. -/
def LList.step {E : Type} (l : LList E) : Op E → LList E × Out E
  | .clear => (l.clear, .ok)
  | .insert x => (l.insert x, .ok)
  | .append x => (l.append x, .ok)
  | .remove =>
    match l.remove with
    | some (x, l2) => (l2, .val x)
    | none => (l, .err)
  | .moveToStart => (l.moveToStart, .ok)
  | .moveToEnd => (l.moveToEnd, .ok)
  | .prev => (l.prev, .ok)
  | .next => (l.next, .ok)
  | .length => (l, .nat l.length)
  | .currPos => (l, .nat l.currPos)
  | .moveToPos pos =>
    match l.moveToPos pos with
    | some l2 => (l2, .ok)
    | none => (l, .err)
  | .getValue =>
    match l.getValue with
    | some x => (l, .val x)
    | none => (l, .err)
  | .isEmpty => (l, .bool l.isEmpty)

/-- Run a sequence of calls on an LList, collecting the outcomes. -/
def LList.run {E : Type} (l : LList E) : List (Op E) → LList E × List (Out E)
  | [] => (l, [])
  | op :: ops =>
    let s := l.step op
    let r := s.1.run ops
    (r.1, s.2 :: r.2)

/-- One call of the Vector API (the fallible accessors and the mutators the
claims mention). -/
inductive VOp (E : Type) where
  | atIdx (i : Nat)
  | front
  | back
  | push_back (x : E)
  | pop_back
  | reserve (n : Nat)
  | shrinkToFit
  | clear
  | resize (n : Nat)
  deriving Repr, DecidableEq

/-- One call on a Vector: state afterwards and observable outcome.  A
throwing call propagates before any mutation. -/
def Vector.step {E : Type} [Inhabited E] (v : Vector E) : VOp E → Vector E × Out E
  | .atIdx i =>
    match v.atIdx i with
    | some x => (v, .val x)
    | none => (v, .err)
  | .front =>
    match v.front with
    | some x => (v, .val x)
    | none => (v, .err)
  | .back =>
    match v.back with
    | some x => (v, .val x)
    | none => (v, .err)
  | .push_back x => (v.push_back x, .ok)
  | .pop_back =>
    match v.pop_back with
    | some v2 => (v2, .ok)
    | none => (v, .err)
  | .reserve n => (v.reserve n, .ok)
  | .shrinkToFit => (v.shrink_to_fit, .ok)
  | .clear => (v.clear, .ok)
  | .resize n => (v.resize n, .ok)

/-! ### Memory-level model of copy construction, for deep-copy isolation

The pure models above cannot express buffer aliasing, so the two copy
routines are additionally modelled against explicit stores.  AList.h
allocates whole buffers with make_unique, so its store is a list of blocks
addressed by allocation order; LList.h allocates one node at a time with
new, so its store is a pool of (element, next) cells addressed by
allocation order.  Allocation always returns a fresh address (the C++
allocator never hands out storage that is still owned), and delete is not
reused, which is sound for isolation statements. -/

/-- Store of array buffers; a block address is an index into blocks. -/
structure BlockHeap (E : Type) where
  blocks : List (List E)

/-- make_unique of a value-initialized buffer of n cells (AList.h 83):
returns the grown heap and the fresh block address. -/
def BlockHeap.alloc {E : Type} [Inhabited E] (h : BlockHeap E) (n : Nat) :
    BlockHeap E × Nat :=
  (⟨h.blocks ++ [List.replicate n default]⟩, h.blocks.length)

/-- Read the cell at index i of the block at address b. -/
def BlockHeap.readCell {E : Type} (h : BlockHeap E) (b i : Nat) : Option E :=
  match h.blocks[b]? with
  | some blk => blk[i]?
  | none => none

/-- Write the cell at index i of the block at address b. -/
def BlockHeap.writeCell {E : Type} (h : BlockHeap E) (b i : Nat) (x : E) :
    BlockHeap E :=
  match h.blocks[b]? with
  | some blk => ⟨h.blocks.set b (blk.set i x)⟩
  | none => h

/-- Copy the first n cells of the block at src into the block at dst
(std::copy_n, AList.h 86). -/
def BlockHeap.copyCells {E : Type} (h : BlockHeap E) (src dst : Nat) :
    Nat → BlockHeap E
  | 0 => h
  | n + 1 =>
    let h2 := h.copyCells src dst n
    match h2.readCell src n with
    | some x => h2.writeCell dst n x
    | none => h2

/-- An AList whose buffer lives in a BlockHeap: the address held by
listArray_ together with the scalar fields (AList.h 23-26). -/
structure AListH where
  block : Nat
  capacity : Nat
  size : Nat
  curr : Nat

/-- Copy constructor (AList.h 82-87) at the memory level: allocate a fresh
buffer of other.capacity_, copy_n the size_ live cells, share no storage. -/
def AListH.copyCtor {E : Type} [Inhabited E] (h : BlockHeap E) (a : AListH) :
    BlockHeap E × AListH :=
  let p := h.alloc a.capacity
  (p.1.copyCells a.block p.2 a.size, ⟨p.2, a.capacity, a.size, a.curr⟩)

/-- The elementary buffer store listArray_[i] = x through which every
element mutation of an AList goes. -/
def AListH.writeElem {E : Type} (h : BlockHeap E) (a : AListH) (i : Nat)
    (x : E) : BlockHeap E :=
  h.writeCell a.block i x

/-- Read listArray_[i]. -/
def AListH.readElem {E : Type} (h : BlockHeap E) (a : AListH) (i : Nat) :
    Option E :=
  h.readCell a.block i

/-- Pool of linked-list nodes; a node address is an index into nodes; the
second component is the next pointer, none standing for nullptr. -/
structure Pool (E : Type) where
  nodes : List (E × Option Nat)

/-- new Link(x, nxt): returns the grown pool and the fresh node address. -/
def Pool.alloc {E : Type} (p : Pool E) (x : E) (nxt : Option Nat) :
    Pool E × Nat :=
  (⟨p.nodes ++ [(x, nxt)]⟩, p.nodes.length)

/-- Read the element field of the node at address a. -/
def Pool.readElem {E : Type} (p : Pool E) (a : Nat) : Option E :=
  (p.nodes[a]?).map Prod.fst

/-- Read the next field of the node at address a (none also when the
address is invalid). -/
def Pool.readNext {E : Type} (p : Pool E) (a : Nat) : Option Nat :=
  match p.nodes[a]? with
  | some c => c.2
  | none => none

/-- Store to the next field of the node at address a. -/
def Pool.setNext {E : Type} (p : Pool E) (a : Nat) (nxt : Option Nat) :
    Pool E :=
  match p.nodes[a]? with
  | some c => ⟨p.nodes.set a (c.1, nxt)⟩
  | none => p

/-- Store to the element field of the node at address a, the elementary
mutation of a stored element. -/
def Pool.setElem {E : Type} (p : Pool E) (a : Nat) (x : E) : Pool E :=
  match p.nodes[a]? with
  | some c => ⟨p.nodes.set a (x, c.2)⟩
  | none => p

/-- Follow next pointers from cur, collecting the elements of at most fuel
nodes (the walk of copyFrom, LList.h 66-71; fuel bounds the walk, which on
a valid chain ends at nullptr first). -/
def Pool.readChainElems {E : Type} (p : Pool E) :
    Option Nat → Nat → List E
  | _, 0 => []
  | none, _ + 1 => []
  | some a, fuel + 1 =>
    match p.nodes[a]? with
    | some c => c.1 :: p.readChainElems c.2 fuel
    | none => []

/-- Follow next pointers from cur, collecting at most fuel addresses. -/
def Pool.chainAddrs {E : Type} (p : Pool E) :
    Option Nat → Nat → List Nat
  | _, 0 => []
  | none, _ + 1 => []
  | some a, fuel + 1 =>
    match p.nodes[a]? with
    | some c => a :: p.chainAddrs c.2 fuel
    | none => [a]

/-- Follow next pointers k times from cur (the walk of moveToPos,
LList.h 324-328). -/
def Pool.walk {E : Type} (p : Pool E) : Option Nat → Nat → Option Nat
  | cur, 0 => cur
  | cur, k + 1 =>
    match cur with
    | some a => p.walk (p.readNext a) k
    | none => none

/-- Count the steps from cur to the address stop (the walk of currPos,
LList.h 298-307), at most fuel of them. -/
def Pool.countTo {E : Type} (p : Pool E) : Option Nat → Nat → Nat → Nat
  | _, _, 0 => 0
  | none, _, _ + 1 => 0
  | some a, stop, fuel + 1 =>
    if a = stop then 0
    else (p.countTo (p.readNext a) stop fuel) + 1

/-- An LList whose nodes live in a Pool: the three node pointers and size_
(LList.h 26-29). -/
structure LListP where
  head : Nat
  tail : Nat
  curr : Nat
  size : Nat

/-- append (LList.h 188-193) at the memory level: allocate the node, link
it behind tail_, advance tail_. -/
def LListP.appendH {E : Type} (p : Pool E) (l : LListP) (x : E) :
    Pool E × LListP :=
  let q := p.alloc x none
  (q.1.setNext l.tail (some q.2), { l with tail := q.2, size := l.size + 1 })

/-- copyFrom (LList.h 61-76) at the memory level: read the source chain,
init a fresh header, append every element in order, then reposition curr_
at the source relative offset by walking the new chain.  The walks only
read the pool. -/
def LListP.copyFromH {E : Type} [Inhabited E] (p : Pool E) (src : LListP) :
    Pool E × LListP :=
  let xs := p.readChainElems (p.readNext src.head) p.nodes.length
  let q := p.alloc default none
  let r := xs.foldl (fun acc x => LListP.appendH acc.1 acc.2 x)
    (q.1, ⟨q.2, q.2, q.2, 0⟩)
  let pos := p.countTo (some src.head) src.curr (p.nodes.length + 1)
  (r.1, { r.2 with curr := (r.1.walk (some r.2.head) pos).getD r.2.head })

/-- Shape of the chain a copy built from pool length n0 occupies: the
header sits at address n0, the k-th copied node at n0 + k + 1, every node
links to its successor and the tail node ends the chain with a null next.
All these addresses are fresh with respect to the original pool. -/
def ChainInv {E : Type} (q : Pool E) (m : LListP) (n0 : Nat) : Prop :=
  m.head = n0
  ∧ m.tail = n0 + m.size
  ∧ q.nodes.length = n0 + m.size + 1
  ∧ (∀ k, k < m.size → (q.nodes[n0 + k]?).map Prod.snd = some (some (n0 + k + 1)))
  ∧ (q.nodes[n0 + m.size]?).map Prod.snd = some none

/-! ### Coupling between the two sequence implementations -/

/-- Coupling between an array state and a linked state: same element
sequence and same cursor position. -/
def Couples {E : Type} (a : AList E) (l : LList E) : Prop :=
  a.elems = l.before ++ l.after ∧ a.curr = l.before.length

lemma AList.ensureCapacity_elems {E : Type} (a : AList E) :
    a.ensureCapacity.elems = a.elems := by
  unfold AList.ensureCapacity AList.resize
  split <;> rfl

lemma AList.ensureCapacity_curr {E : Type} (a : AList E) :
    a.ensureCapacity.curr = a.curr := by
  unfold AList.ensureCapacity AList.resize
  split <;> rfl

/-- One coupled call: both implementations produce the same observable
outcome and the successor states stay coupled. -/
lemma step_couples {E : Type} {a : AList E} {l : LList E}
    (h : Couples a l) (op : Op E) :
    (a.step op).2 = (l.step op).2 ∧ Couples (a.step op).1 (l.step op).1 := by
  obtain ⟨he, hc⟩ := h
  have hsize : a.size = l.size := by
    simp [AList.size, LList.size, he]
  cases op with
  | clear =>
    exact ⟨rfl, by simp [AList.step, LList.step, AList.clear, LList.clear, Couples]⟩
  | insert x =>
    refine ⟨rfl, ?_, ?_⟩
    · show (a.insert x).elems = (l.insert x).before ++ (l.insert x).after
      simp only [AList.insert, AList.ensureCapacity_elems, AList.ensureCapacity_curr,
        LList.insert, he, hc]
      rw [List.take_left, List.drop_left]
    · show (a.insert x).curr = (l.insert x).before.length
      simp only [AList.insert, AList.ensureCapacity_curr, LList.insert, hc]
  | append x =>
    refine ⟨rfl, ?_, ?_⟩
    · show (a.append x).elems = (l.append x).before ++ (l.append x).after
      simp [AList.append, AList.ensureCapacity_elems, LList.append, he]
    · show (a.append x).curr = (l.append x).before.length
      simp only [AList.append, AList.ensureCapacity_curr, LList.append, hc]
  | remove =>
    cases hafter : l.after with
    | nil =>
      have hnot : ¬ l.before.length < a.size := by
        simp [AList.size, he, hafter]
      refine ⟨?_, ?_, ?_⟩ <;>
        simp [AList.step, LList.step, AList.remove, LList.remove, hnot, hafter, he, hc]
    | cons y rest =>
      have hlt : a.curr < a.size := by
        simp [AList.size, he, hafter, hc]
      have hlt2 : l.before.length < a.size := hc ▸ hlt
      have hlt3 : l.before.length < a.elems.length := hlt2
      have hget : a.elems[l.before.length] = y := by
        simp only [he, hafter]
        simp [List.getElem_append_right]
      have htake : List.take l.before.length a.elems = l.before := by
        rw [he, hafter]
        exact List.take_left l.before (y :: rest)
      have hdrop : List.drop (l.before.length + 1) a.elems = rest := by
        rw [he, hafter]
        have hsplit : l.before ++ y :: rest = (l.before ++ [y]) ++ rest := by simp
        rw [hsplit]
        have hlen : l.before.length + 1 = (l.before ++ [y]).length := by simp
        rw [hlen, List.drop_left]
      refine ⟨?_, ?_, ?_⟩
      · show ((a.step Op.remove).2 : Out E) = (l.step Op.remove).2
        simp [AList.step, LList.step, AList.remove, LList.remove, hlt, hlt2,
          hafter, hget, hc]
      · show (a.step Op.remove).1.elems
          = (l.step Op.remove).1.before ++ (l.step Op.remove).1.after
        simp [AList.step, LList.step, AList.remove, LList.remove, hlt, hlt2,
          hafter, htake, hdrop, hc]
      · show (a.step Op.remove).1.curr = (l.step Op.remove).1.before.length
        simp [AList.step, LList.step, AList.remove, LList.remove, hlt, hlt2,
          hafter, hc]
  | moveToStart =>
    exact ⟨rfl, by simp [AList.step, LList.step, AList.moveToStart,
      LList.moveToStart, Couples, he]⟩
  | moveToEnd =>
    refine ⟨rfl, ?_, ?_⟩
    · show (a.moveToEnd).elems = (l.moveToEnd).before ++ (l.moveToEnd).after
      simp [AList.moveToEnd, LList.moveToEnd, he]
    · show (a.moveToEnd).curr = (l.moveToEnd).before.length
      simp [AList.moveToEnd, LList.moveToEnd, AList.size, he]
  | prev =>
    rcases List.eq_nil_or_concat l.before with hb | ⟨bs, b, hb⟩
    · have hz : a.curr = 0 := by simp [hc, hb]
      refine ⟨rfl, ?_, ?_⟩ <;>
        simp [AList.step, LList.step, AList.prev, LList.prev, hz, hb, he, hc]
    · have hpos : 0 < a.curr := by simp [hc, hb]
      refine ⟨rfl, ?_, ?_⟩
      · show (a.prev).elems = (l.prev).before ++ (l.prev).after
        simp [AList.prev, LList.prev, hpos, hb, he, List.getLast?_concat,
          List.dropLast_concat]
      · show (a.prev).curr = (l.prev).before.length
        simp [AList.prev, LList.prev, hpos, hb, hc, List.getLast?_concat,
          List.dropLast_concat]
  | next =>
    cases hafter : l.after with
    | nil =>
      have hnot : ¬ l.before.length < a.size := by
        simp [AList.size, he, hafter]
      refine ⟨rfl, ?_, ?_⟩ <;>
        simp [AList.step, LList.step, AList.next, LList.next, hnot, hafter, he, hc]
    | cons y rest =>
      have hlt : a.curr < a.size := by
        simp [AList.size, he, hafter, hc]
      have hlt2 : l.before.length < a.size := hc ▸ hlt
      refine ⟨rfl, ?_, ?_⟩
      · show (a.next).elems = (l.next).before ++ (l.next).after
        simp [AList.next, LList.next, hlt, hlt2, hafter, he, hc]
      · show (a.next).curr = (l.next).before.length
        simp [AList.next, LList.next, hlt, hlt2, hafter, hc]
  | length =>
    exact ⟨by simp [AList.step, LList.step, AList.length, LList.length, hsize],
      he, hc⟩
  | currPos =>
    exact ⟨by simp [AList.step, LList.step, AList.currPos, LList.currPos, hc],
      he, hc⟩
  | moveToPos pos =>
    by_cases hp : l.size < pos
    · have hp2 : a.size < pos := by rw [hsize]; exact hp
      refine ⟨?_, ?_, ?_⟩ <;>
        simp [AList.step, LList.step, AList.moveToPos, LList.moveToPos, hp, hp2, he, hc]
    · have hp2 : ¬ a.size < pos := by rw [hsize]; exact hp
      refine ⟨?_, ?_, ?_⟩
      · show ((a.step (Op.moveToPos pos)).2 : Out E) = (l.step (Op.moveToPos pos)).2
        simp [AList.step, LList.step, AList.moveToPos, LList.moveToPos, hp, hp2]
      · show (a.step (Op.moveToPos pos)).1.elems
          = (l.step (Op.moveToPos pos)).1.before ++ (l.step (Op.moveToPos pos)).1.after
        simp [AList.step, LList.step, AList.moveToPos, LList.moveToPos, hp, hp2, he]
      · show (a.step (Op.moveToPos pos)).1.curr
          = (l.step (Op.moveToPos pos)).1.before.length
        have hle : pos ≤ l.before.length + l.after.length := by
          simpa [LList.size] using Nat.le_of_not_lt hp
        simp [AList.step, LList.step, AList.moveToPos, LList.moveToPos, hp, hp2,
          List.length_take]
        omega
  | getValue =>
    have hv : a.getValue = l.getValue := by
      rw [AList.getValue, LList.getValue, he, hc]
      rw [List.getElem?_append_right (Nat.le_refl _)]
      simp
      cases l.after <;> simp
    cases hg : l.getValue with
    | none =>
      refine ⟨?_, ?_, ?_⟩ <;> simp [AList.step, LList.step, hv, hg, he, hc]
    | some x =>
      refine ⟨?_, ?_, ?_⟩ <;> simp [AList.step, LList.step, hv, hg, he, hc]
  | isEmpty =>
    refine ⟨?_, he, hc⟩
    simp [AList.step, LList.step, AList.isEmpty, LList.isEmpty, AList.length,
      LList.length, hsize]

/-- Coupled runs: identical outcome traces, coupled final states. -/
lemma run_couples {E : Type} {a : AList E} {l : LList E}
    (h : Couples a l) (ops : List (Op E)) :
    (a.run ops).2 = (l.run ops).2 ∧ Couples (a.run ops).1 (l.run ops).1 := by
  induction ops generalizing a l with
  | nil => exact ⟨rfl, h⟩
  | cons op ops ih =>
    have hs := step_couples h op
    have hr := ih hs.2
    refine ⟨?_, ?_⟩
    · show (a.step op).2 :: ((a.step op).1.run ops).2
        = (l.step op).2 :: ((l.step op).1.run ops).2
      rw [hs.1, hr.1]
    · show Couples ((a.step op).1.run ops).1 ((l.step op).1.run ops).1
      exact hr.2

/-! ### Claim theorems -/

/-- C1: for every finite sequence of operations of the sequence abstraction
(clear, insert, append, remove, moveToStart, moveToEnd, prev, next, length,
currPos, moveToPos, getValue, isEmpty) applied starting from an empty
container, the array-backed AList and the linked LList produce identical
observable results: the same values returned by remove, length, currPos,
getValue and isEmpty, and the same success-or-failure outcome for every
call. -/
theorem C1_alist_llist_observational_equivalence {E : Type}
    (initialCapacity : Nat) (ops : List (Op E)) :
    ((AList.mkEmpty E initialCapacity).run ops).2
      = ((LList.mkEmpty E).run ops).2 :=
  (run_couples ⟨rfl, rfl⟩ ops).1

/-- Witness for C1 at a concrete operation sequence. -/
theorem C1_alist_llist_observational_equivalence_witness :
    ((AList.mkEmpty Nat 10).run
        [Op.insert 3, Op.insert 2, Op.insert 1, Op.getValue, Op.next,
          Op.getValue, Op.remove, Op.length, Op.currPos, Op.moveToPos 9,
          Op.moveToEnd, Op.getValue, Op.isEmpty]).2
      = ((LList.mkEmpty Nat).run
        [Op.insert 3, Op.insert 2, Op.insert 1, Op.getValue, Op.next,
          Op.getValue, Op.remove, Op.length, Op.currPos, Op.moveToPos 9,
          Op.moveToEnd, Op.getValue, Op.isEmpty]).2 :=
  C1_alist_llist_observational_equivalence 10
    [Op.insert 3, Op.insert 2, Op.insert 1, Op.getValue, Op.next,
      Op.getValue, Op.remove, Op.length, Op.currPos, Op.moveToPos 9,
      Op.moveToEnd, Op.getValue, Op.isEmpty]

/-- C3: for both implementations, after any finite operation sequence from
the empty container, 0 <= currPos() <= length() holds; for the linked list
the bound holds in every zipper state whatever the history. -/
theorem C3_cursor_invariant {E : Type}
    (initialCapacity : Nat) (ops : List (Op E)) :
    (0 ≤ (((AList.mkEmpty E initialCapacity).run ops).1).currPos
      ∧ (((AList.mkEmpty E initialCapacity).run ops).1).currPos
        ≤ (((AList.mkEmpty E initialCapacity).run ops).1).length)
    ∧ ∀ l : LList E, 0 ≤ l.currPos ∧ l.currPos ≤ l.length := by
  refine ⟨⟨Nat.zero_le _, ?_⟩, fun l => ⟨Nat.zero_le _, ?_⟩⟩
  · obtain ⟨he, hc⟩ :=
      (run_couples (⟨rfl, rfl⟩ :
        Couples (AList.mkEmpty E initialCapacity) (LList.mkEmpty E)) ops).2
    show (((AList.mkEmpty E initialCapacity).run ops).1).curr
      ≤ (((AList.mkEmpty E initialCapacity).run ops).1).elems.length
    rw [he, hc]
    simp
  · show l.before.length ≤ l.before.length + l.after.length
    exact Nat.le_add_right _ _

/-- Witness for C3 at a concrete run and a concrete linked state. -/
theorem C3_cursor_invariant_witness :
    (0 ≤ (((AList.mkEmpty Nat 10).run
        [Op.append 1, Op.append 2, Op.moveToEnd, Op.remove, Op.prev]).1).currPos
      ∧ (((AList.mkEmpty Nat 10).run
        [Op.append 1, Op.append 2, Op.moveToEnd, Op.remove, Op.prev]).1).currPos
        ≤ (((AList.mkEmpty Nat 10).run
        [Op.append 1, Op.append 2, Op.moveToEnd, Op.remove, Op.prev]).1).length)
    ∧ (0 ≤ (⟨[1, 2], [3]⟩ : LList Nat).currPos
      ∧ (⟨[1, 2], [3]⟩ : LList Nat).currPos ≤ (⟨[1, 2], [3]⟩ : LList Nat).length) :=
  ⟨(C3_cursor_invariant 10
      [Op.append 1, Op.append 2, Op.moveToEnd, Op.remove, Op.prev]).1,
    (C3_cursor_invariant 10
      [Op.append 1, Op.append 2, Op.moveToEnd, Op.remove, Op.prev]).2 ⟨[1, 2], [3]⟩⟩

/-- C4: for both implementations and every list state (satisfying the
cursor invariant in the array case), insert(x) always succeeds, increases
length() by one, leaves currPos() unchanged and places x at the cursor so
that an immediately following getValue() returns x; and insert 3, insert 2,
insert 1 on an empty list traverses from the start as 1, 2, 3. -/
theorem C4_insert_functional_correctness :
    (∀ (E : Type) (a : AList E) (x : E), a.curr ≤ a.size →
      ((a.insert x).length = a.length + 1
        ∧ (a.insert x).currPos = a.currPos
        ∧ (a.insert x).getValue = some x))
    ∧ (∀ (E : Type) (l : LList E) (x : E),
      ((l.insert x).length = l.length + 1
        ∧ (l.insert x).currPos = l.currPos
        ∧ (l.insert x).getValue = some x))
    ∧ ((AList.mkEmpty Nat 10).run
        [Op.insert 3, Op.insert 2, Op.insert 1, Op.moveToStart, Op.getValue,
          Op.next, Op.getValue, Op.next, Op.getValue]).2
      = [Out.ok, Out.ok, Out.ok, Out.ok, Out.val 1, Out.ok, Out.val 2,
          Out.ok, Out.val 3]
    ∧ ((LList.mkEmpty Nat).run
        [Op.insert 3, Op.insert 2, Op.insert 1, Op.moveToStart, Op.getValue,
          Op.next, Op.getValue, Op.next, Op.getValue]).2
      = [Out.ok, Out.ok, Out.ok, Out.ok, Out.val 1, Out.ok, Out.val 2,
          Out.ok, Out.val 3] := by
  refine ⟨?_, ?_, by rfl, by rfl⟩
  · intro E a x h
    have hs : a.size = a.elems.length := rfl
    refine ⟨?_, ?_, ?_⟩
    · show (a.insert x).elems.length = a.elems.length + 1
      simp [AList.insert, AList.ensureCapacity_elems, AList.ensureCapacity_curr,
        List.length_take]
      omega
    · show (a.insert x).curr = a.curr
      simp [AList.insert, AList.ensureCapacity_curr]
    · show (a.insert x).elems[(a.insert x).curr]? = some x
      simp only [AList.insert, AList.ensureCapacity_elems, AList.ensureCapacity_curr]
      have hlen : (a.elems.take a.curr).length = a.curr := by
        simp [List.length_take]
        omega
      rw [List.getElem?_append_right (le_of_eq hlen)]
      simp [hlen]
  · intro E l x
    refine ⟨?_, rfl, rfl⟩
    show (l.insert x).size = l.size + 1
    simp [LList.insert, LList.size]
    omega

/-- Witness for C4 at concrete states. -/
theorem C4_insert_functional_correctness_witness :
    (((⟨[5], 10, 0⟩ : AList Nat).insert 7).length
        = (⟨[5], 10, 0⟩ : AList Nat).length + 1
      ∧ ((⟨[5], 10, 0⟩ : AList Nat).insert 7).currPos
        = (⟨[5], 10, 0⟩ : AList Nat).currPos
      ∧ ((⟨[5], 10, 0⟩ : AList Nat).insert 7).getValue = some 7)
    ∧ (((⟨[1], [2]⟩ : LList Nat).insert 9).length
        = (⟨[1], [2]⟩ : LList Nat).length + 1
      ∧ ((⟨[1], [2]⟩ : LList Nat).insert 9).currPos
        = (⟨[1], [2]⟩ : LList Nat).currPos
      ∧ ((⟨[1], [2]⟩ : LList Nat).insert 9).getValue = some 9) :=
  ⟨C4_insert_functional_correctness.1 Nat ⟨[5], 10, 0⟩ 7 (by decide),
    C4_insert_functional_correctness.2.1 Nat ⟨[1], [2]⟩ 9⟩

/-- C5: for both implementations, in every state with currPos() <
length(), remove() returns the element at the cursor, decreases length() by
one, leaves currPos() unchanged so that the following element (if any)
becomes current, and keeps the other elements in relative order. -/
theorem C5_remove_functional_correctness :
    (∀ (E : Type) (a : AList E), a.curr < a.size →
      ∃ x a2, a.remove = some (x, a2)
        ∧ a.elems[a.curr]? = some x
        ∧ a2.length = a.length - 1
        ∧ a2.currPos = a.currPos
        ∧ a2.getValue = a.elems[a.curr + 1]?
        ∧ a2.elems = a.elems.eraseIdx a.curr)
    ∧ (∀ (E : Type) (l : LList E), l.currPos < l.length →
      ∃ x l2, l.remove = some (x, l2)
        ∧ (l.before ++ l.after)[l.currPos]? = some x
        ∧ l2.length = l.length - 1
        ∧ l2.currPos = l.currPos
        ∧ l2.getValue = (l.before ++ l.after)[l.currPos + 1]?
        ∧ l2.before ++ l2.after = (l.before ++ l.after).eraseIdx l.currPos) := by
  constructor
  · intro E a h
    have hs : a.size = a.elems.length := rfl
    refine ⟨a.elems.get ⟨a.curr, h⟩,
      ⟨a.elems.take a.curr ++ a.elems.drop (a.curr + 1), a.capacity, a.curr⟩,
      dif_pos h, ?_, ?_, rfl, ?_, ?_⟩
    · simp [List.getElem?_eq_getElem h]
    · show (a.elems.take a.curr ++ a.elems.drop (a.curr + 1)).length
        = a.elems.length - 1
      simp [List.length_take]
      omega
    · show (a.elems.take a.curr ++ a.elems.drop (a.curr + 1))[a.curr]?
        = a.elems[a.curr + 1]?
      have hlen : (a.elems.take a.curr).length = a.curr := by
        simp [List.length_take]
        omega
      rw [List.getElem?_append_right (le_of_eq hlen)]
      simp [hlen, List.getElem?_drop]
    · exact (List.eraseIdx_eq_take_drop_succ a.elems a.curr).symm
  · intro E l h
    cases hafter : l.after with
    | nil =>
      exfalso
      have h2 : l.before.length < l.before.length + l.after.length := h
      rw [hafter] at h2
      simp at h2
    | cons y rest =>
      refine ⟨y, ⟨l.before, rest⟩, by simp [LList.remove, hafter], ?_, ?_, rfl, ?_, ?_⟩
      · show (l.before ++ y :: rest)[l.before.length]? = some y
        rw [List.getElem?_append_right (Nat.le_refl _)]
        simp
      · show l.before.length + rest.length
          = l.before.length + l.after.length - 1
        rw [hafter]
        simp
      · show rest.head? = (l.before ++ y :: rest)[l.before.length + 1]?
        rw [List.getElem?_append_right (by omega)]
        cases rest <;> simp
      · show l.before ++ rest = (l.before ++ y :: rest).eraseIdx l.before.length
        rw [List.eraseIdx_eq_take_drop_succ]
        have ht : (l.before ++ y :: rest).take l.before.length = l.before :=
          List.take_left l.before (y :: rest)
        have hd : (l.before ++ y :: rest).drop (l.before.length + 1) = rest := by
          have hsplit : l.before ++ y :: rest = (l.before ++ [y]) ++ rest := by simp
          rw [hsplit]
          have hlen : l.before.length + 1 = (l.before ++ [y]).length := by simp
          rw [hlen, List.drop_left]
        rw [ht, hd]

/-- Witness for C5 at concrete states. -/
theorem C5_remove_functional_correctness_witness :
    (∃ x a2, (⟨[4, 5], 10, 0⟩ : AList Nat).remove = some (x, a2)
      ∧ (⟨[4, 5], 10, 0⟩ : AList Nat).elems[(⟨[4, 5], 10, 0⟩ : AList Nat).curr]?
        = some x
      ∧ a2.length = (⟨[4, 5], 10, 0⟩ : AList Nat).length - 1
      ∧ a2.currPos = (⟨[4, 5], 10, 0⟩ : AList Nat).currPos
      ∧ a2.getValue
        = (⟨[4, 5], 10, 0⟩ : AList Nat).elems[(⟨[4, 5], 10, 0⟩ : AList Nat).curr + 1]?
      ∧ a2.elems
        = (⟨[4, 5], 10, 0⟩ : AList Nat).elems.eraseIdx (⟨[4, 5], 10, 0⟩ : AList Nat).curr)
    ∧ (∃ x l2, (⟨[4], [5, 6]⟩ : LList Nat).remove = some (x, l2)
      ∧ ((⟨[4], [5, 6]⟩ : LList Nat).before
          ++ (⟨[4], [5, 6]⟩ : LList Nat).after)[(⟨[4], [5, 6]⟩ : LList Nat).currPos]?
        = some x
      ∧ l2.length = (⟨[4], [5, 6]⟩ : LList Nat).length - 1
      ∧ l2.currPos = (⟨[4], [5, 6]⟩ : LList Nat).currPos
      ∧ l2.getValue
        = ((⟨[4], [5, 6]⟩ : LList Nat).before
          ++ (⟨[4], [5, 6]⟩ : LList Nat).after)[(⟨[4], [5, 6]⟩ : LList Nat).currPos + 1]?
      ∧ l2.before ++ l2.after
        = ((⟨[4], [5, 6]⟩ : LList Nat).before
          ++ (⟨[4], [5, 6]⟩ : LList Nat).after).eraseIdx (⟨[4], [5, 6]⟩ : LList Nat).currPos) :=
  ⟨C5_remove_functional_correctness.1 Nat ⟨[4, 5], 10, 0⟩ (by decide),
    C5_remove_functional_correctness.2 Nat ⟨[4], [5, 6]⟩ (by decide)⟩

/-- C6: for both implementations, remove() and getValue() fail exactly when
currPos() == length(); remove() on an empty list fails; after append 1,
append 2, append 3, moveToEnd on the linked list, getValue fails while
currPos returns 3. -/
theorem C6_failure_iff_cursor_at_end :
    (∀ (E : Type) (a : AList E), a.curr ≤ a.size →
      ((a.remove = none ↔ a.currPos = a.length)
        ∧ (a.getValue = none ↔ a.currPos = a.length)))
    ∧ (∀ (E : Type) (l : LList E),
      ((l.remove = none ↔ l.currPos = l.length)
        ∧ (l.getValue = none ↔ l.currPos = l.length)))
    ∧ (AList.mkEmpty Nat 10).remove = none
    ∧ (LList.mkEmpty Nat).remove = none
    ∧ ((LList.mkEmpty Nat).run
        [Op.append 1, Op.append 2, Op.append 3, Op.moveToEnd, Op.getValue,
          Op.currPos]).2
      = [Out.ok, Out.ok, Out.ok, Out.ok, Out.err, Out.nat 3] := by
  refine ⟨?_, ?_, by rfl, by rfl, by rfl⟩
  · intro E a h
    have hs : a.size = a.elems.length := rfl
    have h2 : a.curr ≤ a.elems.length := h
    constructor
    · show (if h : a.curr < a.elems.length then _ else none) = none
        ↔ a.curr = a.elems.length
      by_cases hlt : a.curr < a.elems.length
      · simp [hlt]
        omega
      · simp [hlt]
        omega
    · show a.elems[a.curr]? = none ↔ a.curr = a.elems.length
      rw [List.getElem?_eq_none_iff]
      omega
  · intro E l
    cases hafter : l.after with
    | nil =>
      constructor
      · simp [LList.remove, hafter, LList.currPos, LList.length, LList.size]
      · simp [LList.getValue, hafter, LList.currPos, LList.length, LList.size]
    | cons y rest =>
      constructor
      · simp [LList.remove, hafter, LList.currPos, LList.length, LList.size]
      · simp [LList.getValue, hafter, LList.currPos, LList.length, LList.size]

/-- Witness for C6 at a concrete array state. -/
theorem C6_failure_iff_cursor_at_end_witness :
    ((⟨[1], 10, 1⟩ : AList Nat).remove = none
      ↔ (⟨[1], 10, 1⟩ : AList Nat).currPos = (⟨[1], 10, 1⟩ : AList Nat).length)
    ∧ ((⟨[1], 10, 1⟩ : AList Nat).getValue = none
      ↔ (⟨[1], 10, 1⟩ : AList Nat).currPos = (⟨[1], 10, 1⟩ : AList Nat).length) :=
  C6_failure_iff_cursor_at_end.1 Nat ⟨[1], 10, 1⟩ (by decide)

/-- C10: for both implementations, if currPos() == length() (so getValue()
fails), then append(x) leaves currPos() numerically unchanged and the
appended element becomes current: getValue() then returns x. -/
theorem C10_append_at_end_cursor :
    (∀ (E : Type) (a : AList E) (x : E), a.curr = a.size →
      (a.getValue = none
        ∧ (a.append x).currPos = a.currPos
        ∧ (a.append x).getValue = some x))
    ∧ (∀ (E : Type) (l : LList E) (x : E), l.currPos = l.length →
      (l.getValue = none
        ∧ (l.append x).currPos = l.currPos
        ∧ (l.append x).getValue = some x)) := by
  constructor
  · intro E a x h
    have h2 : a.curr = a.elems.length := h
    refine ⟨?_, ?_, ?_⟩
    · show a.elems[a.curr]? = none
      rw [List.getElem?_eq_none_iff]
      omega
    · show (a.append x).curr = a.curr
      simp [AList.append, AList.ensureCapacity_curr]
    · show (a.append x).elems[(a.append x).curr]? = some x
      simp only [AList.append, AList.ensureCapacity_elems, AList.ensureCapacity_curr]
      rw [List.getElem?_append_right (le_of_eq h2.symm)]
      simp [h2]
  · intro E l x h
    have h2 : l.before.length = l.before.length + l.after.length := h
    have hafter : l.after = [] := List.eq_nil_of_length_eq_zero (by omega)
    refine ⟨?_, rfl, ?_⟩
    · show l.after.head? = none
      rw [hafter]
      rfl
    · show (l.after ++ [x]).head? = some x
      rw [hafter]
      rfl

/-- Witness for C10 at concrete end-cursor states. -/
theorem C10_append_at_end_cursor_witness :
    ((⟨[1], 10, 1⟩ : AList Nat).getValue = none
      ∧ ((⟨[1], 10, 1⟩ : AList Nat).append 8).currPos
        = (⟨[1], 10, 1⟩ : AList Nat).currPos
      ∧ ((⟨[1], 10, 1⟩ : AList Nat).append 8).getValue = some 8)
    ∧ ((⟨[2], []⟩ : LList Nat).getValue = none
      ∧ ((⟨[2], []⟩ : LList Nat).append 6).currPos
        = (⟨[2], []⟩ : LList Nat).currPos
      ∧ ((⟨[2], []⟩ : LList Nat).append 6).getValue = some 6) :=
  ⟨C10_append_at_end_cursor.1 Nat ⟨[1], 10, 1⟩ 8 (by decide),
    C10_append_at_end_cursor.2 Nat ⟨[2], []⟩ 6 (by decide)⟩

/-- C7: whenever an operation of AList, LList or Vector fails (throws), the
observable container state after the failing call is exactly the state
before the call: every check precedes every mutation. -/
theorem C7_failure_is_atomic :
    (∀ (E : Type) (a : AList E) (op : Op E),
      (a.step op).2 = Out.err → (a.step op).1 = a)
    ∧ (∀ (E : Type) (l : LList E) (op : Op E),
      (l.step op).2 = Out.err → (l.step op).1 = l)
    ∧ (∀ (E : Type) (inst : Inhabited E) (v : Vector E) (op : VOp E),
      (@Vector.step E inst v op).2 = Out.err → (@Vector.step E inst v op).1 = v) := by
  refine ⟨?_, ?_, ?_⟩
  · intro E a op h
    cases op with
    | remove =>
      cases hr : a.remove with
      | none => simp [AList.step, hr]
      | some p => simp [AList.step, hr] at h
    | moveToPos pos =>
      cases hr : a.moveToPos pos with
      | none => simp [AList.step, hr]
      | some a2 => simp [AList.step, hr] at h
    | getValue =>
      cases hr : a.getValue with
      | none => simp [AList.step, hr]
      | some x => simp [AList.step, hr]
    | _ => simp [AList.step] at h
  · intro E l op h
    cases op with
    | remove =>
      cases hr : l.remove with
      | none => simp [LList.step, hr]
      | some p => simp [LList.step, hr] at h
    | moveToPos pos =>
      cases hr : l.moveToPos pos with
      | none => simp [LList.step, hr]
      | some l2 => simp [LList.step, hr] at h
    | getValue =>
      cases hr : l.getValue with
      | none => simp [LList.step, hr]
      | some x => simp [LList.step, hr]
    | _ => simp [LList.step] at h
  · intro E inst v op h
    cases op with
    | atIdx i =>
      cases hr : v.atIdx i with
      | none => simp [Vector.step, hr]
      | some x => simp [Vector.step, hr]
    | front =>
      cases hr : v.front with
      | none => simp [Vector.step, hr]
      | some x => simp [Vector.step, hr]
    | back =>
      cases hr : v.back with
      | none => simp [Vector.step, hr]
      | some x => simp [Vector.step, hr]
    | pop_back =>
      cases hr : v.pop_back with
      | none => simp [Vector.step, hr]
      | some v2 => simp [Vector.step, hr] at h
    | _ => simp [Vector.step] at h

/-- Witness for C7 at concrete failing calls (remove and pop_back on empty
containers). -/
theorem C7_failure_is_atomic_witness :
    ((AList.mkEmpty Nat 10).step Op.remove).1 = AList.mkEmpty Nat 10
    ∧ ((LList.mkEmpty Nat).step Op.remove).1 = LList.mkEmpty Nat
    ∧ ((Vector.mkEmpty Nat 0).step VOp.pop_back).1 = Vector.mkEmpty Nat 0 :=
  ⟨C7_failure_is_atomic.1 Nat (AList.mkEmpty Nat 10) Op.remove rfl,
    C7_failure_is_atomic.2.1 Nat (LList.mkEmpty Nat) Op.remove rfl,
    C7_failure_is_atomic.2.2 Nat inferInstance (Vector.mkEmpty Nat 0)
      VOp.pop_back rfl⟩

/-- C2 evidence: after move construction the AList source has length 0 and
append on it succeeds, making the length 1; the LList source also reports
length 0, but append on it dereferences the null tail_ pointer and has no
defined result (none) — the claimed usability fails for LList. -/
theorem C2_moved_from_source_behaviour :
    (∀ (E : Type) (a : AList E) (x : E),
      ((AList.moveCtor a).2).length = 0
        ∧ (((AList.moveCtor a).2).append x).length = 1)
    ∧ (∀ (E : Type) (l : LListRaw E), ((LListRaw.moveCtor l).2).length = 0)
    ∧ ((LListRaw.moveCtor (⟨some (LList.mkEmpty Nat)⟩ : LListRaw Nat)).2).append 1
      = none := by
  refine ⟨?_, ?_, rfl⟩
  · intro E a x
    exact ⟨rfl, rfl⟩
  · intro E l
    rfl

/-- C9 counterexample: one push_back and one pop_back on a
default-constructed Vector leave an empty vector with capacity 16;
shrink_to_fit then leaves capacity 0, not a fixed nonzero minimum.  The
AList analogue with a zero initial capacity also stays at capacity 0. -/
theorem C9_counterexample_empty_shrink_releases_capacity :
    ((Vector.mkEmpty Nat 0).push_back 1).pop_back = some ⟨[], 16⟩
    ∧ (Vector.shrink_to_fit (⟨[], 16⟩ : Vector Nat)).capacity = 0
    ∧ (AList.shrink_to_fit (AList.mkEmpty Nat 0)).capacity = 0 :=
  ⟨rfl, rfl, rfl⟩

/-- C9 amended: shrink_to_fit leaves size, contents and order unchanged;
for Vector the capacity becomes exactly size (0 when empty, releasing the
buffer); for AList it becomes size when size > 0 and min(capacity, 1) when
size == 0. -/
theorem C9_amended_shrink_to_fit_capacity :
    (∀ (E : Type) (v : Vector E), v.size ≤ v.capacity →
      ((v.shrink_to_fit).elems = v.elems
        ∧ (v.shrink_to_fit).capacity = v.size))
    ∧ (∀ (E : Type) (a : AList E), a.size ≤ a.capacity →
      ((a.shrink_to_fit).elems = a.elems
        ∧ (a.shrink_to_fit).capacity
          = if 0 < a.size then a.size else min a.capacity 1)) := by
  constructor
  · intro E v h
    have hs : v.size = v.elems.length := rfl
    constructor
    · simp only [Vector.shrink_to_fit]
      split_ifs <;> rfl
    · simp only [Vector.shrink_to_fit]
      split_ifs <;> (try simp) <;> omega
  · intro E a h
    have hs : a.size = a.elems.length := rfl
    constructor
    · simp only [AList.shrink_to_fit, AList.resize]
      split_ifs <;> rfl
    · simp only [AList.shrink_to_fit, AList.resize]
      split_ifs <;> (try simp) <;> omega

/-- Witness for the amended C9 at concrete states. -/
theorem C9_amended_shrink_to_fit_capacity_witness :
    ((⟨[3], 3⟩ : Vector Nat).shrink_to_fit.elems = (⟨[3], 3⟩ : Vector Nat).elems
      ∧ (⟨[3], 3⟩ : Vector Nat).shrink_to_fit.capacity
        = (⟨[3], 3⟩ : Vector Nat).size)
    ∧ ((⟨[3], 3, 0⟩ : AList Nat).shrink_to_fit.elems
        = (⟨[3], 3, 0⟩ : AList Nat).elems
      ∧ (⟨[3], 3, 0⟩ : AList Nat).shrink_to_fit.capacity
        = if 0 < (⟨[3], 3, 0⟩ : AList Nat).size then (⟨[3], 3, 0⟩ : AList Nat).size
          else min (⟨[3], 3, 0⟩ : AList Nat).capacity 1) :=
  ⟨C9_amended_shrink_to_fit_capacity.1 Nat ⟨[3], 3⟩ (by decide),
    C9_amended_shrink_to_fit_capacity.2 Nat ⟨[3], 3, 0⟩ (by decide)⟩

/-! ### Lemmas for the copy routines -/

lemma LList.foldl_append_eq {E : Type} (xs : List E) (l : LList E) :
    xs.foldl (fun acc x => acc.append x) l = ⟨l.before, l.after ++ xs⟩ := by
  induction xs generalizing l with
  | nil => simp
  | cons x xs ih =>
    rw [List.foldl_cons, ih]
    simp [LList.append]

lemma LList.copyFrom_eq {E : Type} (l : LList E) : l.copyFrom = l := by
  unfold LList.copyFrom
  rw [LList.foldl_append_eq]
  simp only [LList.mkEmpty, List.nil_append]
  unfold LList.moveToPos
  simp only [LList.size, LList.currPos, List.nil_append, List.length_nil,
    Nat.zero_add]
  rw [if_neg (by simp)]
  simp only [Option.getD_some, List.nil_append]
  rw [List.take_left, List.drop_left]

lemma BlockHeap.readCell_writeCell_ne {E : Type} (h : BlockHeap E)
    {b b2 : Nat} (i j : Nat) (x : E) (hne : b ≠ b2) :
    (h.writeCell b i x).readCell b2 j = h.readCell b2 j := by
  unfold BlockHeap.writeCell BlockHeap.readCell
  cases hb : h.blocks[b]? with
  | none => rfl
  | some blk => simp [List.getElem?_set_ne hne]

lemma Pool.readElem_setElem_ne {E : Type} (p : Pool E) {a b : Nat} (x : E)
    (hne : a ≠ b) :
    (p.setElem a x).readElem b = p.readElem b := by
  unfold Pool.setElem Pool.readElem
  cases hp : p.nodes[a]? with
  | none => rfl
  | some c => simp [List.getElem?_set_ne hne]

lemma Pool.getElem?_setNext_ne {E : Type} (p : Pool E) {a b : Nat}
    (nxt : Option Nat) (hne : a ≠ b) :
    (p.setNext a nxt).nodes[b]? = p.nodes[b]? := by
  unfold Pool.setNext
  cases hp : p.nodes[a]? with
  | none => rfl
  | some c => simp [List.getElem?_set_ne hne]

lemma Pool.getElem?_setNext_self {E : Type} (p : Pool E) {a : Nat}
    (nxt : Option Nat) (c : E × Option Nat) (hp : p.nodes[a]? = some c) :
    (p.setNext a nxt).nodes[a]? = some (c.1, nxt) := by
  have hlt : a < p.nodes.length := by
    by_contra hge
    rw [List.getElem?_eq_none (Nat.le_of_not_lt hge)] at hp
    exact Option.noConfusion hp
  unfold Pool.setNext
  rw [hp]
  simp [List.getElem?_set_self hlt]

lemma Pool.length_setNext {E : Type} (p : Pool E) (a : Nat)
    (nxt : Option Nat) :
    (p.setNext a nxt).nodes.length = p.nodes.length := by
  unfold Pool.setNext
  cases hp : p.nodes[a]? <;> simp

lemma Pool.chainAddrs_none {E : Type} (p : Pool E) (fuel : Nat) :
    p.chainAddrs none fuel = [] := by
  cases fuel <;> rfl

/-- One appendH step preserves the chain shape and never touches a node of
the original pool. -/
lemma LListP.appendH_inv {E : Type} {q : Pool E} {m : LListP} {n0 : Nat}
    (hinv : ChainInv q m n0) (x : E) :
    ChainInv (LListP.appendH q m x).1 (LListP.appendH q m x).2 n0
    ∧ ∀ b, b < n0 → (LListP.appendH q m x).1.nodes[b]? = q.nodes[b]? := by
  obtain ⟨hh, ht, hlen, hnext, hlast⟩ := hinv
  have htail_lt : m.tail < q.nodes.length := by omega
  obtain ⟨c, hc, hc2⟩ : ∃ c, q.nodes[n0 + m.size]? = some c ∧ c.2 = none := by
    cases hq : q.nodes[n0 + m.size]? with
    | none => rw [hq] at hlast; simp at hlast
    | some c =>
      rw [hq] at hlast
      simp at hlast
      exact ⟨c, rfl, hlast⟩
  have halloc : ((q.alloc x none).1).nodes = q.nodes ++ [(x, none)] := rfl
  have haddr : (q.alloc x none).2 = q.nodes.length := rfl
  have htail_q1 : ((q.alloc x none).1).nodes[m.tail]? = some c := by
    rw [halloc, List.getElem?_append_left htail_lt, ht, hc]
  refine ⟨⟨hh, ?_, ?_, ?_, ?_⟩, ?_⟩
  · show (q.alloc x none).2 = n0 + (m.size + 1)
    rw [haddr]
    omega
  · show ((q.alloc x none).1.setNext m.tail (some (q.alloc x none).2)).nodes.length
      = n0 + (m.size + 1) + 1
    rw [Pool.length_setNext, halloc]
    simp
    omega
  · intro k hk
    rcases Nat.lt_succ_iff_lt_or_eq.1 hk with hk2 | hk2
    · have hne : m.tail ≠ n0 + k := by omega
      show (((q.alloc x none).1.setNext m.tail
        (some (q.alloc x none).2)).nodes[n0 + k]?).map Prod.snd
        = some (some (n0 + k + 1))
      rw [Pool.getElem?_setNext_ne _ _ hne, halloc,
        List.getElem?_append_left (by omega)]
      exact hnext k hk2
    · subst hk2
      show (((q.alloc x none).1.setNext m.tail
        (some (q.alloc x none).2)).nodes[n0 + m.size]?).map Prod.snd
        = some (some (n0 + m.size + 1))
      rw [← ht, Pool.getElem?_setNext_self _ _ c htail_q1]
      simp [haddr]
      omega
  · have hne : m.tail ≠ n0 + (m.size + 1) := by omega
    show (((q.alloc x none).1.setNext m.tail
      (some (q.alloc x none).2)).nodes[n0 + (m.size + 1)]?).map Prod.snd
      = some none
    rw [Pool.getElem?_setNext_ne _ _ hne, halloc]
    have hidx : n0 + (m.size + 1) = q.nodes.length := by omega
    rw [hidx, List.getElem?_append_right (Nat.le_refl _)]
    simp
  · intro b hb
    have hne : m.tail ≠ b := by omega
    show ((q.alloc x none).1.setNext m.tail
      (some (q.alloc x none).2)).nodes[b]? = q.nodes[b]?
    rw [Pool.getElem?_setNext_ne _ _ hne, halloc,
      List.getElem?_append_left (by omega)]

/-- Folding appendH over any element list preserves the chain shape and the
whole original pool prefix. -/
lemma LListP.appendH_foldl_inv {E : Type} (n0 : Nat) (xs : List E) :
    ∀ (q : Pool E) (m : LListP), ChainInv q m n0 →
      ChainInv (xs.foldl (fun acc x => LListP.appendH acc.1 acc.2 x) (q, m)).1
        (xs.foldl (fun acc x => LListP.appendH acc.1 acc.2 x) (q, m)).2 n0
      ∧ ∀ b, b < n0 →
        (xs.foldl (fun acc x => LListP.appendH acc.1 acc.2 x) (q, m)).1.nodes[b]?
          = q.nodes[b]? := by
  induction xs with
  | nil =>
    intro q m h
    exact ⟨h, fun b _ => rfl⟩
  | cons x xs ih =>
    intro q m h
    have hstep := LListP.appendH_inv h x
    have hrest := ih (LListP.appendH q m x).1 (LListP.appendH q m x).2 hstep.1
    refine ⟨?_, ?_⟩
    · simpa using hrest.1
    · intro b hb
      have h1 := hrest.2 b hb
      have h2 := hstep.2 b hb
      simpa using h1.trans h2

/-- Every address collected along a consecutive chain starting at n0 + j is
at least n0. -/
lemma Pool.chainAddrs_chain_ge {E : Type} (q : Pool E) (n0 size : Nat)
    (hnext : ∀ k, k < size →
      (q.nodes[n0 + k]?).map Prod.snd = some (some (n0 + k + 1)))
    (hlast : (q.nodes[n0 + size]?).map Prod.snd = some none) :
    ∀ (fuel j : Nat), j ≤ size →
      ∀ addr ∈ q.chainAddrs (some (n0 + j)) fuel, n0 ≤ addr := by
  intro fuel
  induction fuel with
  | zero =>
    intro j hj addr haddr
    simp [Pool.chainAddrs] at haddr
  | succ fuel ih =>
    intro j hj addr haddr
    by_cases hjs : j < size
    · have h1 := hnext j hjs
      cases hq : q.nodes[n0 + j]? with
      | none => rw [hq] at h1; simp at h1
      | some c =>
        rw [hq] at h1
        simp at h1
        simp only [Pool.chainAddrs, hq] at haddr
        rcases List.mem_cons.1 haddr with rfl | hmem
        · omega
        · rw [h1] at hmem
          exact ih (j + 1) (by omega) addr hmem
    · have hjeq : j = size := by omega
      subst hjeq
      cases hq : q.nodes[n0 + j]? with
      | none => rw [hq] at hlast; simp at hlast
      | some c =>
        rw [hq] at hlast
        simp at hlast
        simp only [Pool.chainAddrs, hq, hlast, Pool.chainAddrs_none] at haddr
        rcases List.mem_cons.1 haddr with rfl | hmem
        · omega
        · simp at hmem

/-- copyFromH builds a fresh consecutive chain and leaves every node of the
original pool untouched. -/
lemma LListP.copyFromH_spec {E : Type} [Inhabited E] (p : Pool E)
    (src : LListP) :
    ChainInv (LListP.copyFromH p src).1 (LListP.copyFromH p src).2
      p.nodes.length
    ∧ ∀ b, b < p.nodes.length →
      (LListP.copyFromH p src).1.nodes[b]? = p.nodes[b]? := by
  have hinit : ChainInv (p.alloc default none).1
      ⟨(p.alloc default none).2, (p.alloc default none).2,
        (p.alloc default none).2, 0⟩ p.nodes.length := by
    refine ⟨rfl, by simp [Pool.alloc], ?_, ?_, ?_⟩
    · show ((p.alloc (default : E) none).1).nodes.length = p.nodes.length + 0 + 1
      simp [Pool.alloc]
    · intro k hk
      exact absurd hk (Nat.not_lt_zero k)
    · show ((((p.alloc (default : E) none).1).nodes[p.nodes.length + 0]?).map
        Prod.snd) = some none
      show (((p.nodes ++ [((default : E), none)])[p.nodes.length + 0]?).map
        Prod.snd) = some none
      rw [Nat.add_zero, List.getElem?_append_right (Nat.le_refl _)]
      simp
  have hfold := LListP.appendH_foldl_inv p.nodes.length
    (p.readChainElems (p.readNext src.head) p.nodes.length)
    (p.alloc default none).1
    ⟨(p.alloc default none).2, (p.alloc default none).2,
      (p.alloc default none).2, 0⟩ hinit
  constructor
  · exact hfold.1
  · intro b hb
    have h1 := hfold.2 b hb
    have h2 : ((p.alloc (default : E) none).1).nodes[b]? = p.nodes[b]? := by
      show (p.nodes ++ [((default : E), none)])[b]? = p.nodes[b]?
      rw [List.getElem?_append_left hb]
    exact h1.trans h2

/-- C8: copying a container yields one with the same elements, length and
cursor position (first two conjuncts, on the pure models), and the copy
shares no storage with the source: at the memory level the array copy gets
a fresh buffer block, so writing any cell of either buffer leaves the other
unchanged, and the linked copy consists solely of freshly allocated nodes,
so writing the element of any node of either chain leaves the other
unchanged. -/
theorem C8_deep_copy_isolation :
    (∀ (E : Type) (a : AList E), a.copy = a)
    ∧ (∀ (E : Type) (l : LList E), l.copyFrom = l)
    ∧ (∀ (E : Type) (inst : Inhabited E) (h : BlockHeap E) (a : AListH),
        a.block < h.blocks.length →
          ((@AListH.copyCtor E inst h a).2.block ≠ a.block
          ∧ (∀ i x j,
              BlockHeap.readCell
                (AListH.writeElem (@AListH.copyCtor E inst h a).1
                  (@AListH.copyCtor E inst h a).2 i x) a.block j
                = BlockHeap.readCell (@AListH.copyCtor E inst h a).1 a.block j)
          ∧ (∀ i x j,
              BlockHeap.readCell
                (AListH.writeElem (@AListH.copyCtor E inst h a).1 a i x)
                (@AListH.copyCtor E inst h a).2.block j
                = BlockHeap.readCell (@AListH.copyCtor E inst h a).1
                    (@AListH.copyCtor E inst h a).2.block j)))
    ∧ (∀ (E : Type) (inst : Inhabited E) (p : Pool E) (src : LListP),
        ((∀ b, b < p.nodes.length →
            (@LListP.copyFromH E inst p src).1.nodes[b]? = p.nodes[b]?)
        ∧ (∀ addr ∈ (@LListP.copyFromH E inst p src).1.chainAddrs
              (some (@LListP.copyFromH E inst p src).2.head)
              ((@LListP.copyFromH E inst p src).2.size + 1),
            p.nodes.length ≤ addr)
        ∧ (∀ addr x b, p.nodes.length ≤ addr → b < p.nodes.length →
            Pool.readElem
              (Pool.setElem (@LListP.copyFromH E inst p src).1 addr x) b
              = Pool.readElem (@LListP.copyFromH E inst p src).1 b)
        ∧ (∀ b x addr, b < p.nodes.length → p.nodes.length ≤ addr →
            Pool.readElem
              (Pool.setElem (@LListP.copyFromH E inst p src).1 b x) addr
              = Pool.readElem (@LListP.copyFromH E inst p src).1 addr))) := by
  refine ⟨fun E a => rfl, fun E l => LList.copyFrom_eq l, ?_, ?_⟩
  · intro E inst h a hlt
    have hblock : (@AListH.copyCtor E inst h a).2.block = h.blocks.length := rfl
    refine ⟨?_, ?_, ?_⟩
    · rw [hblock]
      omega
    · intro i x j
      exact BlockHeap.readCell_writeCell_ne _ i j x (by rw [hblock]; omega)
    · intro i x j
      exact BlockHeap.readCell_writeCell_ne _ i j x (by rw [hblock]; omega)
  · intro E inst p src
    obtain ⟨hinv, hpre⟩ := LListP.copyFromH_spec p src
    obtain ⟨hh, ht, hlen, hnext, hlast⟩ := hinv
    refine ⟨hpre, ?_, ?_, ?_⟩
    · intro addr haddr
      rw [hh] at haddr
      exact Pool.chainAddrs_chain_ge (@LListP.copyFromH E inst p src).1
        p.nodes.length (@LListP.copyFromH E inst p src).2.size hnext hlast
        ((@LListP.copyFromH E inst p src).2.size + 1) 0 (Nat.zero_le _)
        addr haddr
    · intro addr x b haddr hb
      exact Pool.readElem_setElem_ne _ x (by omega)
    · intro b x addr hb haddr
      exact Pool.readElem_setElem_ne _ x (by omega)

/-- Witness for C8 at concrete containers, heaps and pools. -/
theorem C8_deep_copy_isolation_witness :
    (⟨[1], 5, 0⟩ : AList Nat).copy = ⟨[1], 5, 0⟩
    ∧ (⟨[1], [2]⟩ : LList Nat).copyFrom = ⟨[1], [2]⟩
    ∧ (AListH.copyCtor (⟨[[7]]⟩ : BlockHeap Nat) ⟨0, 1, 1, 0⟩).2.block ≠ 0
    ∧ BlockHeap.readCell
        (AListH.writeElem (AListH.copyCtor (⟨[[7]]⟩ : BlockHeap Nat) ⟨0, 1, 1, 0⟩).1
          (AListH.copyCtor (⟨[[7]]⟩ : BlockHeap Nat) ⟨0, 1, 1, 0⟩).2 0 9) 0 0
      = BlockHeap.readCell
          (AListH.copyCtor (⟨[[7]]⟩ : BlockHeap Nat) ⟨0, 1, 1, 0⟩).1 0 0
    ∧ (LListP.copyFromH (⟨[(7, none)]⟩ : Pool Nat) ⟨0, 0, 0, 0⟩).1.nodes[0]?
      = (⟨[(7, none)]⟩ : Pool Nat).nodes[0]?
    ∧ (1 : Nat) ≤ 1
    ∧ Pool.readElem
        (Pool.setElem (LListP.copyFromH (⟨[(7, none)]⟩ : Pool Nat) ⟨0, 0, 0, 0⟩).1 1 9) 0
      = Pool.readElem (LListP.copyFromH (⟨[(7, none)]⟩ : Pool Nat) ⟨0, 0, 0, 0⟩).1 0 :=
  ⟨C8_deep_copy_isolation.1 Nat ⟨[1], 5, 0⟩,
    C8_deep_copy_isolation.2.1 Nat ⟨[1], [2]⟩,
    (C8_deep_copy_isolation.2.2.1 Nat inferInstance ⟨[[7]]⟩ ⟨0, 1, 1, 0⟩
      (by decide)).1,
    (C8_deep_copy_isolation.2.2.1 Nat inferInstance ⟨[[7]]⟩ ⟨0, 1, 1, 0⟩
      (by decide)).2.1 0 9 0,
    (C8_deep_copy_isolation.2.2.2 Nat inferInstance ⟨[(7, none)]⟩
      ⟨0, 0, 0, 0⟩).1 0 (by decide),
    (C8_deep_copy_isolation.2.2.2 Nat inferInstance ⟨[(7, none)]⟩
      ⟨0, 0, 0, 0⟩).2.1 1 (by decide),
    (C8_deep_copy_isolation.2.2.2 Nat inferInstance ⟨[(7, none)]⟩
      ⟨0, 0, 0, 0⟩).2.2.1 1 9 0 (by decide) (by decide)⟩

end CppDsa
